import Mathlib

/-!
Verification of the pandas/Streamlit dashboard pipeline of this repository:
the paginated CKAN fetch (`fetch_api_all_records` in `src/app.py`), the
column-name normalization (`normalize_column_names` in
`src/utils/data_processing.py` and `normalizar_columnas` in `src/app.py`),
the wide-to-long melt heuristic and melt (`src/app.py`), the case-insensitive
text filter (`src/app.py`, `src/data/app.py`) and the groupby/sort helpers of
`src/utils/data_processing.py`.

Column names and cell strings are modelled as `List Char`; a DataFrame is a
list of column names together with a list of rows, each row a function from
column names to cell values.
-/

/-- Column names and cell strings: Python `str` values, as lists of characters. -/
abbrev CName : Type := List Char

/-- Shorthand turning a Lean string literal into the `List Char` model. -/
def strL (s : String) : CName := s.toList

/-! ## Character-level primitives

Python's `str.lower`, the accent folding of `normalize_column_names`, and
`str.replace(" ", "_")` are all per-character substitutions.  Each is modelled
as a lookup in an explicit finite map (`applyMap`): characters outside the
map are unchanged.  `lowerMap` models `str.lower` on the alphabet this
repository's column names draw from (ASCII letters plus the accented Spanish
capitals); `accentMap` is the accent folding spelled out at lines 35-36 of
`src/utils/data_processing.py`; `spaceMap` is `.replace(" ", "_")`. -/

/-- Apply a finite character substitution; characters not in the map are kept. -/
def applyMap (m : List (Char × Char)) (c : Char) : Char :=
  match m.find? (fun p => p.1 == c) with
  | some p => p.2
  | none => c

/-- The uppercase-to-lowercase pairs of Python `str.lower` over the Latin
letters used by this repository (ASCII plus accented Spanish capitals). -/
def lowerMap : List (Char × Char) :=
  [('A', 'a'), ('B', 'b'), ('C', 'c'), ('D', 'd'), ('E', 'e'), ('F', 'f'),
   ('G', 'g'), ('H', 'h'), ('I', 'i'), ('J', 'j'), ('K', 'k'), ('L', 'l'),
   ('M', 'm'), ('N', 'n'), ('O', 'o'), ('P', 'p'), ('Q', 'q'), ('R', 'r'),
   ('S', 's'), ('T', 't'), ('U', 'u'), ('V', 'v'), ('W', 'w'), ('X', 'x'),
   ('Y', 'y'), ('Z', 'z'), ('Á', 'á'), ('É', 'é'), ('Í', 'í'), ('Ó', 'ó'),
   ('Ú', 'ú'), ('Ñ', 'ñ')]

/-- The accent folding of `normalize_column_names` (data_processing.py:35-36):
`á→a, é→e, í→i, ó→o, ú→u, ñ→n`. -/
def accentMap : List (Char × Char) :=
  [('á', 'a'), ('é', 'e'), ('í', 'i'), ('ó', 'o'), ('ú', 'u'), ('ñ', 'n')]

/-- `.replace(" ", "_")` as a character substitution. -/
def spaceMap : List (Char × Char) := [(' ', '_')]

/-- One character of Python `str.lower` (restricted to the repo's alphabet). -/
def lowerChar (c : Char) : Char := applyMap lowerMap c

/-- One character of the accent folding. -/
def foldChar (c : Char) : Char := applyMap accentMap c

/-- One character of `.replace(" ", "_")`. -/
def spaceChar (c : Char) : Char := applyMap spaceMap c

/-- The whitespace characters Python `str.strip` removes. -/
def wsChars : List Char := [' ', '\t', '\n', '\r', Char.ofNat 11, Char.ofNat 12]

/-- Whether `str.strip` treats `c` as whitespace. -/
def isSpacePy (c : Char) : Bool := wsChars.contains c

/-- Python `str.strip()`: drop whitespace from both ends. -/
def pyStrip (l : CName) : CName :=
  ((l.dropWhile isSpacePy).reverse.dropWhile isSpacePy).reverse

/-- Python `str.startswith(pat)` on the `List Char` model. -/
def startsWith : CName → CName → Bool
  | [], _ => true
  | _ :: _, [] => false
  | p :: ps, c :: cs => p == c && startsWith ps cs

/-- Python `pat in s` (substring test) on the `List Char` model. -/
def hasSub (pat : CName) : CName → Bool
  | [] => startsWith pat []
  | c :: rest => startsWith pat (c :: rest) || hasSub pat rest

/-- Python `s.replace(pat, rep)` for a non-empty `pat`: replace every
(left-most, non-overlapping) occurrence, scanning left to right. -/
def replaceSub (pat rep : CName) : CName → CName
  | [] => []
  | c :: rest =>
    if pat.isPrefixOf (c :: rest) ∧ pat ≠ [] then
      rep ++ replaceSub pat rep (List.drop (pat.length - 1) rest)
    else
      c :: replaceSub pat rep rest
termination_by l => l.length
decreasing_by
  · simp only [List.length_drop, List.length_cons]
    omega
  · simp [List.length_cons]

/-! ## The two column-name normalizers

`normalize_column_names` (src/utils/data_processing.py:26-39) maps each
column name `c` to `str(c).strip().lower().replace(" ", "_")` followed by the
accent folding; `normalizar_columnas` (src/app.py:64-67) maps each column
name to `str(c).strip().lower().replace(" ", "_")` with no accent folding.
Both build a fresh frame (`df.copy()`), so they are pure functions of the
column-name list. -/

/-- The per-name transformation of `normalize_column_names`. -/
def normName (s : CName) : CName :=
  ((pyStrip s).map lowerChar |>.map spaceChar).map foldChar

/-- `normalize_column_names` (data_processing.py:26-39), acting on the
column-name list of the frame. -/
def normalize_column_names (cols : List CName) : List CName := cols.map normName

/-- `normalizar_columnas` (app.py:64-67), acting on the column-name list:
`strip`, `lower`, spaces to underscores, and no accent folding. -/
def normalizar_columnas (cols : List CName) : List CName :=
  cols.map (fun s => (pyStrip s).map lowerChar |>.map spaceChar)

/-! ### The specification's description of the normalization

The spec describes the normalization as: trim surrounding whitespace,
lowercase, replace each space by an underscore, and fold the accents
`á→a, é→e, í→i, ó→o, ú→u, ñ→n`.  `specNormName` is written from those
words (a single per-character pass after trimming); it is the yardstick the
code's normalizers are compared against. -/

/-- One character of the spec's transformation: a space becomes an
underscore, any other character is lowercased and accent-folded. -/
def specChar (c : Char) : Char :=
  if c = ' ' then '_' else foldChar (lowerChar c)

/-- One character of the spec's transformation without the accent folding. -/
def specCharNoFold (c : Char) : Char :=
  if c = ' ' then '_' else lowerChar c

/-- The spec's per-name normalization: trim, then map `specChar`. -/
def specNormName (s : CName) : CName := (pyStrip s).map specChar

/-- The spec's per-name normalization without accent folding. -/
def specNormNameNoFold (s : CName) : CName := (pyStrip s).map specCharNoFold

/-! ## The paginated API fetch

`fetch_api_all_records` (src/app.py:29-50) loops: request the page at the
current `offset` with page size `page_limit`, append the returned batch,
advance `offset` by the batch size, and stop when a batch is empty or
shorter than `page_limit`; any exception makes the whole function return an
empty frame.  The API is modelled as a function from the requested `offset`
to either a record batch or an exception (`Except`); the unbounded `while
True` loop is modelled with explicit fuel, `none` meaning the loop has not
finished within the given fuel. -/

/-- One run of the `while True` loop of `fetch_api_all_records`
(src/app.py:35-46), from a given `offset` and accumulated `records`.
`none` = the loop did not finish within `fuel` iterations. -/
def fetchLoop (api : Nat → Except ε (List α)) (pl : Nat) :
    Nat → Nat → List α → Option (Except ε (List α))
  | 0, _, _ => none
  | fuel + 1, offset, records =>
    match api offset with
    | Except.error e => some (Except.error e)
    | Except.ok batch =>
      if batch.isEmpty then some (Except.ok records)
      else
        if batch.length < pl then some (Except.ok (records ++ batch))
        else fetchLoop api pl fuel (offset + batch.length) (records ++ batch)

/-- `fetch_api_all_records` (src/app.py:29-50): run the loop from offset 0
with no records; a raised exception is caught and an empty frame returned. -/
def fetch_api_all_records (api : Nat → Except ε (List α)) (pl fuel : Nat) :
    Option (List α) :=
  match fetchLoop api pl fuel 0 [] with
  | none => none
  | some (Except.ok r) => some r
  | some (Except.error _) => some []

/-- An API that never raises: every offset yields a record batch. -/
def pureApi (f : Nat → List α) : Nat → Except Unit (List α) :=
  fun o => Except.ok (f o)

/-- The offset the loop's `i`-th request carries (src/app.py:36,44): 0 at
first, then advanced by the length of each returned batch (an erroring
request returns no batch). -/
def offAt (api : Nat → Except ε (List α)) : Nat → Nat
  | 0 => 0
  | i + 1 =>
    offAt api i +
      (match api (offAt api i) with
       | Except.ok b => b.length
       | Except.error _ => 0)

/-- The concatenation, in request order, of the first `n` returned batches. -/
def accumAt (api : Nat → Except ε (List α)) : Nat → List α
  | 0 => []
  | n + 1 =>
    accumAt api n ++
      (match api (offAt api n) with
       | Except.ok b => b
       | Except.error _ => [])

/-- The first `n` requests all succeed with a full batch: non-empty and at
least `pl` records, so the loop keeps paging. -/
def keepsPaging (api : Nat → Except ε (List α)) (pl n : Nat) : Prop :=
  ∀ i < n, ∃ b, api (offAt api i) = Except.ok b ∧ b ≠ [] ∧ pl ≤ b.length

/-! ## The wide-to-long reshaping of src/app.py

Lines 24 and 133-157 of `src/app.py`: the identifier columns `_id`,
`delito`, `total_general` are excluded; the remaining columns are scanned
for month-name substrings (`any(m in c for m in MESES)`) and for names
starting with `region_` or `region`; when either test fires, the frame is
melted with those remaining columns as value columns, the melted variable
column is named `region_mes` (cleaned at lines 153-155) and the value
column `cantidad`. -/

/-- `MESES` (src/app.py:24): the twelve Spanish month names. -/
def MESES : List CName :=
  [strL "enero", strL "febrero", strL "marzo", strL "abril", strL "mayo",
   strL "junio", strL "julio", strL "agosto", strL "septiembre",
   strL "octubre", strL "noviembre", strL "diciembre"]

/-- `cols_excluir` (src/app.py:134). -/
def cols_excluir : List CName := [strL "_id", strL "delito", strL "total_general"]

/-- `columnas_delitos` (src/app.py:135): every column not excluded. -/
def columnas_delitos (cols : List CName) : List CName :=
  cols.filter (fun c => !(cols_excluir.contains c))

/-- `is_month_format` (src/app.py:139): some candidate column contains a
month name as a substring. -/
def is_month_format (cols : List CName) : Bool :=
  cols.any (fun c => MESES.any (fun m => hasSub m c))

/-- `is_region_format` (src/app.py:140): some candidate column starts with
`region_` or with `region` (prefix tests, not substring tests). -/
def is_region_format (cols : List CName) : Bool :=
  cols.any (fun c => startsWith (strL "region_") c || startsWith (strL "region") c)

/-- The melt decision of src/app.py:144: reshape iff either heuristic fires
on the non-excluded columns. -/
def appShouldMelt (cols : List CName) : Bool :=
  is_month_format (columnas_delitos cols) || is_region_format (columnas_delitos cols)

/-- A wide frame: its column names and its rows, each row a function from
column names to cell values. -/
structure WideDF (β : Type) where
  cols : List CName
  rows : List (CName → β)

/-- `df[c].nunique()` for the id-column test of src/app.py:146: the number
of distinct values in the column (the frame was `fillna(0)`-filled at
line 116, so there are no missing values to drop). -/
def nuniqueCol {β : Type} [DecidableEq β] (rows : List (CName → β)) (c : CName) : Nat :=
  ((rows.map (fun r => r c)).dedup).length

/-- `id_vars` (src/app.py:146-149): columns equal to `delito` or with at
most 200 distinct values; if `delito` is a column it is moved to the front. -/
def id_vars {β : Type} [DecidableEq β] (df : WideDF β) : List CName :=
  let base := df.cols.filter
    (fun c => c == strL "delito" || decide (nuniqueCol df.rows c ≤ 200))
  if df.cols.contains (strL "delito") then
    strL "delito" :: base.filter (fun c => !(c == strL "delito"))
  else base

/-- The cleaning applied to the melted `region_mes` column
(src/app.py:153-155): drop `region_de_`, underscores to spaces, strip,
lowercase (line 153), then lowercase again (line 155). -/
def cleanRegionMes (v : CName) : CName :=
  ((pyStrip ((replaceSub (strL "region_de_") [] v).map
    (applyMap [('_', ' ')]))).map lowerChar).map lowerChar

/-- One row of the long frame `df_long`: the id-column cells, the melted
variable (`region_mes`) and the melted value (`cantidad`). -/
structure LongRow (β : Type) where
  ids : List (CName × β)
  region_mes : CName
  cantidad : β

/-- `df.melt(id_vars=…, value_vars=…, var_name="region_mes",
value_name="cantidad")` (src/app.py:151) followed by the `region_mes`
cleaning: pandas lays the result out value-column-major — all rows for the
first value column, then all rows for the second, and so on. -/
def meltRows {β : Type} (rows : List (CName → β)) (idv vars : List CName) : List (LongRow β) :=
  vars.flatMap (fun v =>
    rows.map (fun r =>
      { ids := idv.map (fun c => (c, r c)),
        region_mes := cleanRegionMes v,
        cantidad := r v }))

/-- `df_long` (src/app.py:143-157): `some` melted frame when a heuristic
fires, `none` otherwise. -/
def appDfLong {β : Type} [DecidableEq β] (df : WideDF β) : Option (List (LongRow β)) :=
  if appShouldMelt df.cols then
    some (meltRows df.rows (id_vars df) (columnas_delitos df.cols))
  else none

/-! ## Cell values, the text filter, and the groupby/sort helpers

`Val` models a pandas cell: a string, an integer, or a missing value
(`NaN`).  `pyStrVal` is `.astype(str)` on one cell: NOTE that pandas turns a
missing value into the string `"nan"`, it does not keep it missing. -/

/-- A cell of the frame: string, integer or missing. -/
inductive Val : Type where
  | vstr : CName → Val
  | vint : Int → Val
  | vna : Val
deriving DecidableEq

/-- Decimal rendering of an integer, for `.astype(str)`. -/
def intStr (k : Int) : CName :=
  if k < 0 then '-' :: Nat.toDigits 10 k.natAbs else Nat.toDigits 10 k.natAbs

/-- `.astype(str)` on one cell: a missing value becomes the string `nan`. -/
def pyStrVal : Val → CName
  | Val.vstr s => s
  | Val.vint k => intStr k
  | Val.vna => strL "nan"

/-- Lowercase a whole string (the effect of `case=False` on the match). -/
def lowerN (s : CName) : CName := s.map lowerChar

/-- The characters Python `re` treats as metacharacters: a pattern holding
one of them is not a literal-text search. -/
def isRegexMeta (c : Char) : Bool :=
  c ∈ ['.', '^', '$', '*', '+', '?', '\x7b', '\x7d', '[', ']', '\\', '|', '(', ')']

/-- The text filter of src/app.py:307-309 and src/data/app.py:32-35:
`df[df[col].astype(str).str.contains(texto, case=False, na=False)]`.  After
`.astype(str)` no value is missing (a missing value becomes the string
`nan`), so `na=False` never applies.  `.str.contains` compiles `texto` as a
REGULAR EXPRESSION (`regex=True` is its default) with `re.IGNORECASE`: only
the literal fragment is modelled here — a non-empty query free of regex
metacharacters keeps exactly the rows whose stringified cell contains it
case-insensitively, while a query holding a metacharacter is matched as a
regex (or raises `re.error`, e.g. the query `(`), which is outside this
literal-text model (`none`).  An empty query leaves the frame unchanged
(`if texto:`). -/
def filtro (rows : List (CName → Val)) (col : CName) (texto : CName) :
    Option (List (CName → Val)) :=
  if texto.isEmpty then some rows
  else if texto.any isRegexMeta then none
  else some (rows.filter (fun r => hasSub (lowerN texto) (lowerN (pyStrVal (r col)))))

/-! ## The groupby/sort helpers of src/utils/data_processing.py

`delitos_mas_frecuentes` (lines 67-77), `ranking_por_region` (lines 80-89)
and `evolucion_anual` (lines 92-101) all check column presence, group the
frame by a key column, sum the total column per group and sort by the
summed value.  pandas' `groupby(...).sum()` skips missing values, and these
helpers are applied to numeric total columns; `valToInt` reads a cell as
its integer contribution to the group sum (missing ⇒ 0).  pandas'
`sort_values` is modelled with `List.insertionSort` (the claims at stake
constrain only the ordering of the result, not the tie-breaking). -/

/-- The contribution of one cell to a `groupby(...).sum()`. -/
def valToInt : Val → Int
  | Val.vint k => k
  | _ => 0

/-- The distinct values of a list, first occurrence first. -/
def firstUniques {γ : Type} [DecidableEq γ] : List γ → List γ
  | [] => []
  | v :: rest => v :: (firstUniques rest).filter (fun x => decide (x ≠ v))

/-- `df.groupby(key)[tot].sum()`: one `(group value, summed total)` pair per
distinct value of the key column. -/
def groupSums (rows : List (CName → Val)) (key tot : CName) : List (Val × Int) :=
  (firstUniques (rows.map (fun r => r key))).map (fun k =>
    (k, ((rows.filter (fun r => r key == k)).map (fun r => valToInt (r tot))).sum))

/-- Comparison for `sort_values(ascending=False)` on the summed totals. -/
def byDesc (a b : Val × Int) : Prop := b.2 ≤ a.2

/-- Comparison for `sort_values()` (ascending) on the summed totals. -/
def byAsc (a b : Val × Int) : Prop := a.2 ≤ b.2

instance : DecidableRel byDesc := fun a b => inferInstanceAs (Decidable (b.2 ≤ a.2))

instance : DecidableRel byAsc := fun a b => inferInstanceAs (Decidable (a.2 ≤ b.2))

instance : IsTotal (Val × Int) byDesc := ⟨fun a b => le_total b.2 a.2⟩

instance : IsTotal (Val × Int) byAsc := ⟨fun a b => le_total a.2 b.2⟩

instance : IsTrans (Val × Int) byDesc := ⟨fun _ _ _ h h' => le_trans h' h⟩

instance : IsTrans (Val × Int) byAsc := ⟨fun _ _ _ h h' => le_trans h h'⟩

/-- `delitos_mas_frecuentes` (data_processing.py:67-77): empty frame when a
named column is absent; otherwise group by the crime column, sum the total
column, sort descending, keep the first `n` and reset the index. -/
def delitos_mas_frecuentes (df : WideDF Val) (col_delito col_total : CName)
    (n : Nat := 10) : List (Val × Int) :=
  if !(df.cols.contains col_delito) || !(df.cols.contains col_total) then []
  else (List.insertionSort byDesc (groupSums df.rows col_delito col_total)).take n

/-- `ranking_por_region` (data_processing.py:80-89): empty frame when a
named column is absent; otherwise group, sum and sort descending. -/
def ranking_por_region (df : WideDF Val) (col_region col_total : CName) :
    List (Val × Int) :=
  if !(df.cols.contains col_region) || !(df.cols.contains col_total) then []
  else List.insertionSort byDesc (groupSums df.rows col_region col_total)

/-- `evolucion_anual` (data_processing.py:92-101): empty frame when a named
column is absent; otherwise group by year, sum and `sort_values()` — which
sorts by the summed VALUE ascending, not by the year. -/
def evolucion_anual (df : WideDF Val) (col_anio col_total : CName) :
    List (Val × Int) :=
  if !(df.cols.contains col_anio) || !(df.cols.contains col_total) then []
  else List.insertionSort byAsc (groupSums df.rows col_anio col_total)

/-! ## C8, C9: the data_processing helpers -/

/-- A concrete two-row frame with columns `anio`, `total`: year 2020 has
total 7, year 2021 has total 5. -/
def exC9row (y t : Int) : CName → Val :=
  fun c => if c == strL "anio" then Val.vint y else Val.vint t

/-- The concrete frame for the `evolucion_anual` demonstration. -/
def exC9df : WideDF Val :=
  ⟨[strL "anio", strL "total"], [exC9row 2020 7, exC9row 2021 5]⟩

theorem contains_eq_true_iff {a : CName} {l : List CName} :
    l.contains a = true ↔ a ∈ l :=
  List.elem_iff

theorem absent_guard_true {cd ct : CName} {cols : List CName}
    (h : cd ∉ cols ∨ ct ∉ cols) :
    (!(cols.contains cd) || !(cols.contains ct)) = true := by
  rcases h with h | h <;> rw [Bool.or_eq_true] <;>
    [left; right] <;> rw [Bool.not_eq_true'] <;>
    exact Bool.not_eq_true _ ▸ fun hc => h (contains_eq_true_iff.mp hc)

theorem present_guard_false {cd ct : CName} {cols : List CName}
    (h1 : cd ∈ cols) (h2 : ct ∈ cols) :
    (!(cols.contains cd) || !(cols.contains ct)) = false := by
  rw [Bool.or_eq_false_iff, Bool.not_eq_false', Bool.not_eq_false']
  exact ⟨contains_eq_true_iff.mpr h1, contains_eq_true_iff.mpr h2⟩

/-- C8: if the named crime (or region) column or the total column is absent,
`delitos_mas_frecuentes` and `ranking_por_region` return an empty frame; when
both columns are present, `delitos_mas_frecuentes` returns at most `n` rows,
ordered by non-increasing summed total, and every returned row is one of the
per-crime `(crime, summed total)` pairs. -/
theorem delitos_ranking_missing_columns (df : WideDF Val) (cd ct : CName) (n : Nat) :
    ((cd ∉ df.cols ∨ ct ∉ df.cols) →
      delitos_mas_frecuentes df cd ct n = [] ∧ ranking_por_region df cd ct = [])
    ∧ (cd ∈ df.cols → ct ∈ df.cols →
        (delitos_mas_frecuentes df cd ct n).length ≤ n
        ∧ (delitos_mas_frecuentes df cd ct n).Pairwise byDesc
        ∧ ∀ p ∈ delitos_mas_frecuentes df cd ct n, p ∈ groupSums df.rows cd ct) := by
  constructor
  · intro h
    have hg := @absent_guard_true cd ct df.cols h
    constructor
    · simp only [delitos_mas_frecuentes, hg, if_true]
    · simp only [ranking_por_region, hg, if_true]
  · intro h1 h2
    have hg := present_guard_false h1 h2
    have hdef : delitos_mas_frecuentes df cd ct n =
        (List.insertionSort byDesc (groupSums df.rows cd ct)).take n := by
      simp only [delitos_mas_frecuentes, hg, Bool.false_eq_true, if_false]
    refine ⟨?_, ?_, ?_⟩
    · rw [hdef, List.length_take]
      exact min_le_left _ _
    · rw [hdef]
      exact List.Pairwise.sublist (List.take_sublist _ _)
        (List.sorted_insertionSort byDesc (groupSums df.rows cd ct))
    · intro p hp
      rw [hdef] at hp
      exact (List.perm_insertionSort byDesc (groupSums df.rows cd ct)).subset
        (List.take_subset _ _ hp)

/-- C9: `evolucion_anual` returns the per-year `(year, summed total)` pairs
ordered by ascending summed value (a permutation of the per-year sums,
pairwise non-decreasing in the sum) — not by year, as the concrete frame
with totals 7 (year 2020) and 5 (year 2021) shows: the result lists 2021
before 2020. -/
theorem evolucion_anual_sorted_by_value (df : WideDF Val) (ca ct : CName) :
    (ca ∈ df.cols → ct ∈ df.cols →
      (evolucion_anual df ca ct).Pairwise byAsc
      ∧ (evolucion_anual df ca ct).Perm (groupSums df.rows ca ct))
    ∧ evolucion_anual exC9df (strL "anio") (strL "total")
        = [(Val.vint 2021, 5), (Val.vint 2020, 7)] := by
  constructor
  · intro h1 h2
    have hg := present_guard_false h1 h2
    have hdef : evolucion_anual df ca ct =
        List.insertionSort byAsc (groupSums df.rows ca ct) := by
      simp only [evolucion_anual, hg, Bool.false_eq_true, if_false]
    rw [hdef]
    exact ⟨List.sorted_insertionSort byAsc _, List.perm_insertionSort byAsc _⟩
  · decide

/-! ## C3, C4: the melt heuristic and the melt -/

theorem contains_eq_false_iff {a : CName} {l : List CName} :
    l.contains a = false ↔ a ∉ l := by
  rw [← contains_eq_true_iff]
  cases h : l.contains a <;> simp

theorem startsWith_iff {p s : CName} : startsWith p s = true ↔ p <+: s := by
  induction p generalizing s with
  | nil => simp [startsWith]
  | cons a p ih =>
    cases s with
    | nil => simp [startsWith]
    | cons b s' =>
      simp [startsWith, Bool.and_eq_true, beq_iff_eq, ih, List.cons_prefix_cons]

theorem hasSub_iff {p s : CName} : hasSub p s = true ↔ p <:+: s := by
  induction s with
  | nil =>
    simp [hasSub, startsWith_iff]
  | cons c s ih =>
    rw [hasSub, Bool.or_eq_true, startsWith_iff, ih, List.infix_cons_iff]

/-- C3 counterexample: the column name `la_region` contains `region` as a
substring (and no month name), so the claim's substring-matching heuristic
fires; but the code's `is_region_format` is a prefix test, so the dashboard
does NOT melt this frame (`df_long` stays `None`). -/
theorem melt_region_substring_cex :
    (appDfLong (WideDF.mk [strL "la_region"] ([] : List (CName → Nat)))).isSome = false
    ∧ hasSub (strL "region") (strL "la_region") = true
    ∧ (strL "la_region") ∉ cols_excluir := by
  refine ⟨by decide, by decide, by decide⟩

/-- C3 amended: the dashboard melts the table exactly when some non-excluded
column name contains one of the twelve Spanish month names as a substring,
or some non-excluded column name STARTS WITH `region_` or `region` (a prefix
test, not substring matching). -/
theorem melt_decision_amended {β : Type} [DecidableEq β] (df : WideDF β) :
    (appDfLong df).isSome = true ↔
      ∃ c ∈ df.cols, c ∉ cols_excluir ∧
        ((∃ m ∈ MESES, hasSub m c = true)
          ∨ startsWith (strL "region_") c = true
          ∨ startsWith (strL "region") c = true) := by
  have h1 : (appDfLong df).isSome = true ↔ appShouldMelt df.cols = true := by
    cases h : appShouldMelt df.cols <;> simp [appDfLong, h]
  rw [h1, appShouldMelt, Bool.or_eq_true, is_month_format, is_region_format]
  simp only [List.any_eq_true, columnas_delitos, List.mem_filter,
    Bool.not_eq_true', contains_eq_false_iff, Bool.or_eq_true]
  constructor
  · rintro (⟨c, ⟨hc, hex⟩, m, hm, hsub⟩ | ⟨c, ⟨hc, hex⟩, hr⟩)
    · exact ⟨c, hc, hex, Or.inl ⟨m, hm, hsub⟩⟩
    · exact ⟨c, hc, hex, Or.inr hr⟩
  · rintro ⟨c, hc, hex, ⟨m, hm, hsub⟩ | hr⟩
    · exact Or.inl ⟨c, ⟨hc, hex⟩, m, hm, hsub⟩
    · exact Or.inr ⟨c, ⟨hc, hex⟩, hr⟩

/-- C4: whenever the dashboard builds `df_long`, it has exactly one row per
(wide row, melted value column) pair — its length is the wide row count
times the number of melted columns; every long row carries the (cleaned)
originating column name in `region_mes` and the wide cell value in
`cantidad`, and every such pair occurs. -/
theorem df_long_row_count {β : Type} [DecidableEq β] (df : WideDF β)
    (L : List (LongRow β)) (h : appDfLong df = some L) :
    L.length = df.rows.length * (columnas_delitos df.cols).length
    ∧ (∀ lr ∈ L, ∃ v ∈ columnas_delitos df.cols, ∃ r ∈ df.rows,
        lr = ⟨(id_vars df).map (fun c => (c, r c)), cleanRegionMes v, r v⟩)
    ∧ (∀ v ∈ columnas_delitos df.cols, ∀ r ∈ df.rows,
        (⟨(id_vars df).map (fun c => (c, r c)), cleanRegionMes v, r v⟩ : LongRow β) ∈ L) := by
  have hL : L = meltRows df.rows (id_vars df) (columnas_delitos df.cols) := by
    cases hc : appShouldMelt df.cols with
    | false => rw [appDfLong] at h; simp [hc] at h
    | true =>
      rw [appDfLong] at h
      simp only [hc, if_true, Option.some.injEq] at h
      exact h.symm
  subst hL
  refine ⟨?_, ?_, ?_⟩
  · rw [meltRows, List.length_flatMap]
    have : List.map (List.length ∘ fun v => df.rows.map (fun r =>
        ({ ids := (id_vars df).map (fun c => (c, r c)),
           region_mes := cleanRegionMes v, cantidad := r v } : LongRow β)))
        (columnas_delitos df.cols)
        = List.map (fun _ => df.rows.length) (columnas_delitos df.cols) := by
      apply List.map_congr_left
      intro v _
      simp [List.length_map]
    rw [this]
    rw [List.map_const', List.sum_replicate, smul_eq_mul, Nat.mul_comm]
  · intro lr hlr
    rw [meltRows, List.mem_flatMap] at hlr
    obtain ⟨v, hv, hlr⟩ := hlr
    rw [List.mem_map] at hlr
    obtain ⟨r, hr, rfl⟩ := hlr
    exact ⟨v, hv, r, hr, rfl⟩
  · intro v hv r hr
    rw [meltRows, List.mem_flatMap]
    exact ⟨v, hv, List.mem_map.mpr ⟨r, hr, rfl⟩⟩

/-- A concrete wide frame on which the dashboard melts: a `delito` column
and an `enero` (month) column, one row. -/
def exC4df : WideDF Nat := ⟨[strL "delito", strL "enero"], [fun _ => 0]⟩

/-- The long frame the dashboard builds for `exC4df`. -/
def exC4L : List (LongRow Nat) :=
  meltRows exC4df.rows (id_vars exC4df) (columnas_delitos exC4df.cols)

theorem df_long_row_count_witness :
    exC4L.length = exC4df.rows.length * (columnas_delitos exC4df.cols).length :=
  (df_long_row_count exC4df exC4L rfl).1

/-! ## C6: the text filter -/

/-- A row whose every cell is missing. -/
def naRow : CName → Val := fun _ => Val.vna

/-- C6 counterexample: a row with a missing value in the searched column is
NOT excluded — `.astype(str)` turns the missing value into the string
`nan`, which contains the (non-empty, metacharacter-free, hence literally
matched) query `nan`, so the row is kept, while the claim says rows with
missing values are excluded. -/
theorem filtro_nan_included_cex :
    filtro [naRow] (strL "c") (strL "nan") = some [naRow]
    ∧ (strL "nan").isEmpty = false
    ∧ (strL "nan").any isRegexMeta = false
    ∧ naRow (strL "c") = Val.vna :=
  ⟨rfl, rfl, rfl, rfl⟩

/-- C6 amended: with an empty query the table is unchanged; a non-empty
query is compiled as a regular expression and matched case-insensitively
against each cell of the selected column converted to a string — a missing
value converting to the string `nan` and participating like any other
value.  For a query free of regex metacharacters (the only queries the
literal-text model covers) this keeps exactly the rows whose stringified
cell contains the query as a substring ignoring case. -/
theorem filtro_spec_amended (rows : List (CName → Val)) (col texto : CName) :
    (texto = [] → filtro rows col texto = some rows)
    ∧ (texto ≠ [] → texto.any isRegexMeta = false →
        ∃ kept, filtro rows col texto = some kept ∧
          ∀ r, r ∈ kept ↔
            r ∈ rows ∧ (lowerN texto) <:+: (lowerN (pyStrVal (r col)))) := by
  constructor
  · intro h; subst h; rfl
  · intro ht hm
    have hne : texto.isEmpty = false := by
      cases texto with
      | nil => exact absurd rfl ht
      | cons a l => rfl
    refine ⟨rows.filter (fun r => hasSub (lowerN texto) (lowerN (pyStrVal (r col)))),
      ?_, ?_⟩
    · simp only [filtro, hne, hm, Bool.false_eq_true, if_false]
    · intro r
      simp only [List.mem_filter, hasSub_iff]

/-! ## C2: the claimed behaviour of both normalizers -/

/-- The keys of `lowerMap`, as a literal list. -/
def lowerKeys : List Char :=
  ['A', 'B', 'C', 'D', 'E', 'F', 'G', 'H', 'I', 'J', 'K', 'L', 'M', 'N',
   'O', 'P', 'Q', 'R', 'S', 'T', 'U', 'V', 'W', 'X', 'Y', 'Z',
   'Á', 'É', 'Í', 'Ó', 'Ú', 'Ñ']

/-- The keys of `accentMap`, as a literal list. -/
def accentKeys : List Char := ['á', 'é', 'í', 'ó', 'ú', 'ñ']

theorem applyMap_eq_self {m : List (Char × Char)} {c : Char}
    (h : ∀ p ∈ m, p.1 ≠ c) : applyMap m c = c := by
  have hn : m.find? (fun p => p.1 == c) = none :=
    List.find?_eq_none.mpr (fun p hp => by
      simpa [beq_iff_eq] using h p hp)
  simp only [applyMap, hn]

theorem applyMap_eq_self_of_not_mem_keys {m : List (Char × Char)}
    {ks : List Char} (hk : ∀ p ∈ m, p.1 ∈ ks) {c : Char} (h : c ∉ ks) :
    applyMap m c = c :=
  applyMap_eq_self (fun p hp he => h (he ▸ hk p hp))

theorem lowerMap_keys : ∀ p ∈ lowerMap, p.1 ∈ lowerKeys := by decide

theorem accentMap_keys : ∀ p ∈ accentMap, p.1 ∈ accentKeys := by decide

theorem spaceChar_eq_self {c : Char} (h : c ≠ ' ') : spaceChar c = c :=
  applyMap_eq_self (fun p hp he => by
    rcases List.mem_singleton.mp hp with rfl
    exact h (he ▸ rfl))

theorem compChar_eq_specChar (c : Char) :
    foldChar (spaceChar (lowerChar c)) = specChar c := by
  by_cases hsp : c = ' '
  · subst hsp; decide
  · by_cases hlk : c ∈ lowerKeys
    · fin_cases hlk <;> decide
    · have h1 : lowerChar c = c := applyMap_eq_self_of_not_mem_keys lowerMap_keys hlk
      rw [h1, spaceChar_eq_self hsp]
      simp only [specChar]
      rw [if_neg hsp, h1]

theorem compCharNoFold_eq_specCharNoFold (c : Char) :
    spaceChar (lowerChar c) = specCharNoFold c := by
  by_cases hsp : c = ' '
  · subst hsp; decide
  · by_cases hlk : c ∈ lowerKeys
    · fin_cases hlk <;> decide
    · have h1 : lowerChar c = c := applyMap_eq_self_of_not_mem_keys lowerMap_keys hlk
      rw [h1, spaceChar_eq_self hsp]
      simp only [specCharNoFold]
      rw [if_neg hsp, h1]

theorem normName_eq_spec (s : CName) : normName s = specNormName s := by
  simp only [normName, specNormName, List.map_map]
  exact List.map_congr_left (fun c _ => compChar_eq_specChar c)

/-- C2 counterexample: `normalizar_columnas` does NOT fold accents — the
column `año` is returned unchanged, while the claim requires `ano` (which
is what `normalize_column_names` produces). -/
theorem normalizar_columnas_keeps_accents_cex :
    normalizar_columnas [strL "año"] = [strL "año"]
    ∧ normalize_column_names [strL "año"] = [strL "ano"]
    ∧ strL "año" ≠ strL "ano" :=
  ⟨by decide, by decide, by decide⟩

/-- C2 amended: `normalize_column_names` maps every column name to its
trimmed, lowercased, space-to-underscore, accent-folded form (the spec's
transformation), while `normalizar_columnas` performs the same
transformation WITHOUT the accent folding; both are pure functions of the
column names, leaving the input frame unchanged. -/
theorem normalization_spec_amended (cols : List CName) :
    normalize_column_names cols = cols.map specNormName
    ∧ normalizar_columnas cols = cols.map specNormNameNoFold := by
  constructor
  · exact List.map_congr_left (fun s _ => normName_eq_spec s)
  · refine List.map_congr_left (fun s _ => ?_)
    simp only [specNormNameNoFold, List.map_map]
    exact List.map_congr_left (fun c _ => compCharNoFold_eq_specCharNoFold c)

/-! ## C1, C5, C7: the pagination loop -/

theorem fetchLoop_succ_ok {ε α : Type} {api : Nat → Except ε (List α)}
    {pl fuel offset : Nat} {records b : List α}
    (hb : api offset = Except.ok b) :
    fetchLoop api pl (fuel + 1) offset records =
      if b.isEmpty then some (Except.ok records)
      else if b.length < pl then some (Except.ok (records ++ b))
      else fetchLoop api pl fuel (offset + b.length) (records ++ b) := by
  simp only [fetchLoop]
  rw [hb]

theorem fetchLoop_succ_err {ε α : Type} {api : Nat → Except ε (List α)}
    {pl fuel offset : Nat} {records : List α} {e : ε}
    (hb : api offset = Except.error e) :
    fetchLoop api pl (fuel + 1) offset records = some (Except.error e) := by
  simp only [fetchLoop]
  rw [hb]

theorem offAt_succ_ok {ε α : Type} {api : Nat → Except ε (List α)} {n : Nat}
    {b : List α} (hb : api (offAt api n) = Except.ok b) :
    offAt api (n + 1) = offAt api n + b.length := by
  simp only [offAt]
  rw [hb]

theorem accumAt_succ_ok {ε α : Type} {api : Nat → Except ε (List α)} {n : Nat}
    {b : List α} (hb : api (offAt api n) = Except.ok b) :
    accumAt api (n + 1) = accumAt api n ++ b := by
  simp only [accumAt]
  rw [hb]

theorem isEmpty_false_of_ne_nil {α : Type} {b : List α} (h : b ≠ []) :
    b.isEmpty = false := by
  cases b with
  | nil => exact absurd rfl h
  | cons a l => rfl

/-- While the loop keeps paging, running it with enough fuel is the same as
resuming it at the `n`-th request with the records gathered so far. -/
theorem fetchLoop_unroll {ε α : Type} (api : Nat → Except ε (List α)) (pl : Nat) :
    ∀ n fuel, keepsPaging api pl n →
      fetchLoop api pl (n + (fuel + 1)) 0 [] =
        fetchLoop api pl (fuel + 1) (offAt api n) (accumAt api n) := by
  intro n
  induction n with
  | zero =>
    intro fuel _
    rw [Nat.zero_add]
    rfl
  | succ n ih =>
    intro fuel h
    have hgood : keepsPaging api pl n := fun i hi => h i (Nat.lt_succ_of_lt hi)
    obtain ⟨b, hb, hbne, hble⟩ := h n (Nat.lt_succ_self n)
    have heq : (n + 1) + (fuel + 1) = n + ((fuel + 1) + 1) := by omega
    rw [heq, ih (fuel + 1) hgood, fetchLoop_succ_ok hb,
      if_neg (by simp [isEmpty_false_of_ne_nil hbne]),
      if_neg (Nat.not_lt.mpr hble), offAt_succ_ok hb, accumAt_succ_ok hb]

/-- While the loop keeps paging, it consumes one unit of fuel per request:
with no stop in sight it runs out of fuel. -/
theorem fetchLoop_none {ε α : Type} (api : Nat → Except ε (List α)) (pl : Nat) :
    ∀ fuel n, keepsPaging api pl (n + fuel) →
      fetchLoop api pl fuel (offAt api n) (accumAt api n) = none := by
  intro fuel
  induction fuel with
  | zero => intro n _; rfl
  | succ fuel ih =>
    intro n h
    obtain ⟨b, hb, hbne, hble⟩ := h n (by omega)
    rw [fetchLoop_succ_ok hb, if_neg (by simp [isEmpty_false_of_ne_nil hbne]),
      if_neg (Nat.not_lt.mpr hble), ← offAt_succ_ok hb, ← accumAt_succ_ok hb]
    exact ih (n + 1) (fun i hi => h i (by omega))

/-- The requested offset always equals the number of records gathered so
far: each batch advances the offset by exactly its length. -/
theorem offAt_eq_accum_length {ε α : Type} (api : Nat → Except ε (List α)) :
    ∀ i, offAt api i = (accumAt api i).length := by
  intro i
  induction i with
  | zero => rfl
  | succ i ih =>
    cases hb : api (offAt api i) with
    | ok b =>
      rw [offAt_succ_ok hb, accumAt_succ_ok hb, List.length_append, ih]
    | error e =>
      simp only [offAt, accumAt]
      rw [hb, ih]
      simp

theorem fetch_of_fetchLoop_ok {ε α : Type} {api : Nat → Except ε (List α)}
    {pl fuel : Nat} {r : List α}
    (h : fetchLoop api pl fuel 0 [] = some (Except.ok r)) :
    fetch_api_all_records api pl fuel = some r := by
  simp only [fetch_api_all_records]
  rw [h]

theorem fetch_of_fetchLoop_err {ε α : Type} {api : Nat → Except ε (List α)}
    {pl fuel : Nat} {e : ε}
    (h : fetchLoop api pl fuel 0 [] = some (Except.error e)) :
    fetch_api_all_records api pl fuel = some [] := by
  simp only [fetch_api_all_records]
  rw [h]

/-- On an API that never raises, the loop never reports an exception. -/
theorem fetchLoop_pure_ok {α : Type} (f : Nat → List α) (pl : Nat) :
    ∀ fuel offset records res,
      fetchLoop (pureApi f) pl fuel offset records = some res →
      ∃ r, res = Except.ok r := by
  intro fuel
  induction fuel with
  | zero => intro o rec res h; exact absurd h (by rw [fetchLoop]; simp)
  | succ fuel ih =>
    intro o rec res h
    rw [fetchLoop_succ_ok (show pureApi f o = Except.ok (f o) from rfl)] at h
    by_cases he : (f o).isEmpty
    · rw [if_pos he] at h
      exact ⟨rec, (Option.some.injEq _ _ ▸ h :).symm⟩
    · rw [if_neg he] at h
      by_cases hl : (f o).length < pl
      · rw [if_pos hl] at h
        exact ⟨rec ++ f o, (Option.some.injEq _ _ ▸ h :).symm⟩
      · rw [if_neg hl] at h
        exact ih _ _ _ h

theorem fetch_of_fetchLoop_none {ε α : Type} {api : Nat → Except ε (List α)}
    {pl fuel : Nat} (h : fetchLoop api pl fuel 0 [] = none) :
    fetch_api_all_records api pl fuel = none := by
  simp only [fetch_api_all_records]
  rw [h]

theorem fetchLoop_none_start {ε α : Type} (api : Nat → Except ε (List α))
    (pl fuel : Nat) (h : keepsPaging api pl fuel) :
    fetchLoop api pl fuel 0 [] = none := by
  have h' : keepsPaging api pl (0 + fuel) := by rw [Nat.zero_add]; exact h
  have h2 := fetchLoop_none api pl fuel 0 h'
  simpa only [offAt, accumAt] using h2

/-- C1: whenever `fetch_api_all_records` returns a frame, there is a number
`n` of full pages such that: every request up to `n` returned a non-empty
batch of at least `page_limit` records, the request at `n` is the first
whose batch is empty or shorter than `page_limit` (where the loop stops),
the result is the concatenation, in request order, of all returned batches,
and every request's offset equals the number of records accumulated before
it. -/
theorem fetch_api_all_records_pagination {α : Type} (f : Nat → List α)
    (pl fuel : Nat) (r : List α)
    (h : fetch_api_all_records (pureApi f) pl fuel = some r) :
    (∀ i, offAt (pureApi f) i = (accumAt (pureApi f) i).length)
    ∧ ∃ n, (∀ i < n, f (offAt (pureApi f) i) ≠ []
              ∧ pl ≤ (f (offAt (pureApi f) i)).length)
        ∧ (f (offAt (pureApi f) n) = [] ∨ (f (offAt (pureApi f) n)).length < pl)
        ∧ r = accumAt (pureApi f) (n + 1) := by
  refine ⟨offAt_eq_accum_length (pureApi f), ?_⟩
  have hloop : fetchLoop (pureApi f) pl fuel 0 [] = some (Except.ok r) := by
    rcases hls : fetchLoop (pureApi f) pl fuel 0 [] with _ | res
    · rw [fetch_of_fetchLoop_none hls] at h
      exact absurd h (by simp)
    · obtain ⟨r', rfl⟩ := fetchLoop_pure_ok f pl fuel 0 [] res hls
      have h2 := fetch_of_fetchLoop_ok hls
      rw [h2, Option.some.injEq] at h
      rw [h]
  haveI : DecidablePred (fun i =>
      f (offAt (pureApi f) i) = [] ∨ (f (offAt (pureApi f) i)).length < pl) :=
    fun _ => Classical.dec _
  have hex : ∃ i, f (offAt (pureApi f) i) = [] ∨ (f (offAt (pureApi f) i)).length < pl := by
    by_contra hno
    push_neg at hno
    have hkeep : keepsPaging (pureApi f) pl fuel := by
      intro i _
      exact ⟨f (offAt (pureApi f) i), rfl, (hno i).1, (hno i).2⟩
    rw [fetchLoop_none_start (pureApi f) pl fuel hkeep] at hloop
    exact absurd hloop (by simp)
  refine ⟨Nat.find hex, ?_, Nat.find_spec hex, ?_⟩
  · intro i hi
    have := Nat.find_min hex hi
    push_neg at this
    exact ⟨this.1, this.2⟩
  · have hgood : keepsPaging (pureApi f) pl (Nat.find hex) := by
      intro i hi
      have := Nat.find_min hex hi
      push_neg at this
      exact ⟨f (offAt (pureApi f) i), rfl, this.1, this.2⟩
    have hlt : Nat.find hex < fuel := by
      by_contra hge
      have hkeep : keepsPaging (pureApi f) pl fuel := by
        intro i hi
        exact hgood i (Nat.lt_of_lt_of_le hi (Nat.le_of_not_lt hge))
      rw [fetchLoop_none_start (pureApi f) pl fuel hkeep] at hloop
      exact absurd hloop (by simp)
    obtain ⟨m, rfl⟩ : ∃ m, fuel = Nat.find hex + (m + 1) :=
      ⟨fuel - Nat.find hex - 1, by omega⟩
    rw [fetchLoop_unroll (pureApi f) pl (Nat.find hex) m hgood] at hloop
    rw [fetchLoop_succ_ok
      (show pureApi f (offAt (pureApi f) (Nat.find hex))
        = Except.ok (f (offAt (pureApi f) (Nat.find hex))) from rfl)] at hloop
    have hacc := accumAt_succ_ok
      (show pureApi f (offAt (pureApi f) (Nat.find hex))
        = Except.ok (f (offAt (pureApi f) (Nat.find hex))) from rfl)
    by_cases hE2 : f (offAt (pureApi f) (Nat.find hex)) = []
    · rw [if_pos (by simp [hE2])] at hloop
      rw [Option.some.injEq, Except.ok.injEq] at hloop
      rw [← hloop, hacc, hE2, List.append_nil]
    · rcases Nat.find_spec hex with hE | hL
      · exact absurd hE hE2
      · rw [if_neg (by simp [isEmpty_false_of_ne_nil hE2]), if_pos hL] at hloop
        rw [Option.some.injEq, Except.ok.injEq] at hloop
        rw [← hloop, hacc]

/-- C7: the loop terminates (returns within some finite fuel) whenever some
request's batch is empty or shorter than `page_limit` — in particular on
every API exposing finitely many records. -/
theorem fetch_terminates {α : Type} (f : Nat → List α) (pl : Nat)
    (h : ∃ n, f (offAt (pureApi f) n) = [] ∨ (f (offAt (pureApi f) n)).length < pl) :
    ∃ fuel r, fetch_api_all_records (pureApi f) pl fuel = some r := by
  haveI : DecidablePred (fun i =>
      f (offAt (pureApi f) i) = [] ∨ (f (offAt (pureApi f) i)).length < pl) :=
    fun _ => Classical.dec _
  have hgood : keepsPaging (pureApi f) pl (Nat.find h) := by
    intro i hi
    have := Nat.find_min h hi
    push_neg at this
    exact ⟨f (offAt (pureApi f) i), rfl, this.1, this.2⟩
  have hu := fetchLoop_unroll (pureApi f) pl (Nat.find h) 0 hgood
  have hstep := @fetchLoop_succ_ok Unit α (pureApi f) pl 0
    (offAt (pureApi f) (Nat.find h)) (accumAt (pureApi f) (Nat.find h))
    (f (offAt (pureApi f) (Nat.find h))) rfl
  by_cases hE2 : f (offAt (pureApi f) (Nat.find h)) = []
  · refine ⟨Nat.find h + (0 + 1), accumAt (pureApi f) (Nat.find h), ?_⟩
    apply fetch_of_fetchLoop_ok
    rw [hu, hstep, if_pos (by simp [hE2])]
  · rcases Nat.find_spec h with hE | hL
    · exact absurd hE hE2
    · refine ⟨Nat.find h + (0 + 1),
        accumAt (pureApi f) (Nat.find h) ++ f (offAt (pureApi f) (Nat.find h)), ?_⟩
      apply fetch_of_fetchLoop_ok
      rw [hu, hstep, if_neg (by simp [isEmpty_false_of_ne_nil hE2]), if_pos hL]

/-- C5: if, after any number of full pages, a request raises (bad status,
network failure, JSON error — any exception), the bare `try/except` catches
it and `fetch_api_all_records` returns an empty frame rather than
propagating the exception or the partial records. -/
theorem fetch_error_returns_empty {ε α : Type} (api : Nat → Except ε (List α))
    (pl fuel n : Nat) (e : ε) (hgood : keepsPaging api pl n)
    (herr : api (offAt api n) = Except.error e) (hfuel : n < fuel) :
    fetch_api_all_records api pl fuel = some [] := by
  obtain ⟨m, rfl⟩ : ∃ m, fuel = n + (m + 1) := ⟨fuel - n - 1, by omega⟩
  apply fetch_of_fetchLoop_err
  rw [fetchLoop_unroll api pl n m hgood, fetchLoop_succ_err herr]

/-- A finite API: offset 0 yields two records, offset 2 one more, then
nothing. -/
def exF : Nat → List Int := fun o => if o = 0 then [10, 20] else if o = 2 then [30] else []

theorem fetch_api_all_records_pagination_witness :
    (∀ i, offAt (pureApi exF) i = (accumAt (pureApi exF) i).length)
    ∧ ∃ n, (∀ i < n, exF (offAt (pureApi exF) i) ≠ []
              ∧ 2 ≤ (exF (offAt (pureApi exF) i)).length)
        ∧ (exF (offAt (pureApi exF) n) = [] ∨ (exF (offAt (pureApi exF) n)).length < 2)
        ∧ [10, 20, 30] = accumAt (pureApi exF) (n + 1) :=
  fetch_api_all_records_pagination exF 2 5 [10, 20, 30] rfl

theorem fetch_terminates_witness :
    ∃ fuel r, fetch_api_all_records (pureApi exF) 2 fuel = some r :=
  fetch_terminates exF 2 ⟨2, Or.inl rfl⟩

/-- An API whose second request raises. -/
def exApiErr : Nat → Except Nat (List Int) :=
  fun o => if o = 0 then Except.ok [1, 2] else Except.error 7

theorem fetch_error_returns_empty_witness :
    fetch_api_all_records exApiErr 2 2 = some [] :=
  fetch_error_returns_empty exApiErr 2 2 1 7
    (by
      intro i hi
      have hz : i = 0 := by omega
      subst hz
      exact ⟨[1, 2], rfl, by decide, by decide⟩)
    rfl (by omega)

/-! ## C10: idempotence of `normalize_column_names` -/

/-- The composite per-character transformation of `normalize_column_names`
(after the trim): lowercase, space to underscore, accent folding. -/
def normCharF (c : Char) : Char := foldChar (spaceChar (lowerChar c))

theorem lowerChar_normCharF (c : Char) : lowerChar (normCharF c) = normCharF c := by
  by_cases hlk : c ∈ lowerKeys
  · fin_cases hlk <;> decide
  · by_cases hsp : c = ' '
    · subst hsp; decide
    · have h1 : lowerChar c = c := applyMap_eq_self_of_not_mem_keys lowerMap_keys hlk
      have h2 : spaceChar c = c := spaceChar_eq_self hsp
      simp only [normCharF]
      rw [h1, h2]
      by_cases hak : c ∈ accentKeys
      · fin_cases hak <;> decide
      · have h3 : foldChar c = c := applyMap_eq_self_of_not_mem_keys accentMap_keys hak
        rw [h3]
        exact h1

theorem spaceChar_normCharF (c : Char) : spaceChar (normCharF c) = normCharF c := by
  by_cases hlk : c ∈ lowerKeys
  · fin_cases hlk <;> decide
  · by_cases hsp : c = ' '
    · subst hsp; decide
    · have h1 : lowerChar c = c := applyMap_eq_self_of_not_mem_keys lowerMap_keys hlk
      have h2 : spaceChar c = c := spaceChar_eq_self hsp
      simp only [normCharF]
      rw [h1, h2]
      by_cases hak : c ∈ accentKeys
      · fin_cases hak <;> decide
      · have h3 : foldChar c = c := applyMap_eq_self_of_not_mem_keys accentMap_keys hak
        rw [h3]
        exact h2

theorem foldChar_normCharF (c : Char) : foldChar (normCharF c) = normCharF c := by
  by_cases hlk : c ∈ lowerKeys
  · fin_cases hlk <;> decide
  · by_cases hsp : c = ' '
    · subst hsp; decide
    · have h1 : lowerChar c = c := applyMap_eq_self_of_not_mem_keys lowerMap_keys hlk
      have h2 : spaceChar c = c := spaceChar_eq_self hsp
      simp only [normCharF]
      rw [h1, h2]
      by_cases hak : c ∈ accentKeys
      · fin_cases hak <;> decide
      · have h3 : foldChar c = c := applyMap_eq_self_of_not_mem_keys accentMap_keys hak
        rw [h3]
        exact h3

theorem isSpacePy_normCharF {c : Char} (h : isSpacePy c = false) :
    isSpacePy (normCharF c) = false := by
  by_cases hlk : c ∈ lowerKeys
  · fin_cases hlk <;> decide
  · by_cases hsp : c = ' '
    · subst hsp; exact absurd h (by decide)
    · have h1 : lowerChar c = c := applyMap_eq_self_of_not_mem_keys lowerMap_keys hlk
      have h2 : spaceChar c = c := spaceChar_eq_self hsp
      simp only [normCharF]
      rw [h1, h2]
      by_cases hak : c ∈ accentKeys
      · fin_cases hak <;> decide
      · have h3 : foldChar c = c := applyMap_eq_self_of_not_mem_keys accentMap_keys hak
        rw [h3]
        exact h

theorem normCharF_idem (c : Char) : normCharF (normCharF c) = normCharF c := by
  rw [show normCharF (normCharF c)
      = foldChar (spaceChar (lowerChar (normCharF c))) from rfl,
    lowerChar_normCharF, spaceChar_normCharF, foldChar_normCharF]

theorem head?_dropWhile_not {p : Char → Bool} {l : List Char} {c : Char}
    (h : (l.dropWhile p).head? = some c) : p c = false := by
  induction l with
  | nil => simp [List.dropWhile] at h
  | cons a l ih =>
    rw [List.dropWhile_cons] at h
    by_cases hp : p a = true
    · rw [if_pos hp] at h
      exact ih h
    · rw [if_neg hp] at h
      simp only [List.head?_cons, Option.some.injEq] at h
      subst h
      exact Bool.eq_false_iff.mpr hp

theorem getLast?_dropWhile {p : Char → Bool} {l : List Char}
    (h : l.dropWhile p ≠ []) : (l.dropWhile p).getLast? = l.getLast? := by
  induction l with
  | nil => simp [List.dropWhile] at h
  | cons a l ih =>
    rw [List.dropWhile_cons] at h ⊢
    by_cases hp : p a = true
    · rw [if_pos hp] at h ⊢
      rw [ih h]
      have hl : l ≠ [] := by
        intro he
        rw [he] at h
        exact h (by rfl)
      cases l with
      | nil => exact absurd rfl hl
      | cons b l' => rw [List.getLast?_cons_cons]
    · rw [if_neg hp]

theorem head_pyStrip_not_ws {l : CName} {c : Char}
    (h : (pyStrip l).head? = some c) : isSpacePy c = false := by
  simp only [pyStrip] at h
  rw [List.head?_reverse] at h
  have hne : (l.dropWhile isSpacePy).reverse.dropWhile isSpacePy ≠ [] := by
    intro he
    rw [he] at h
    simp at h
  rw [getLast?_dropWhile hne, List.getLast?_reverse] at h
  exact head?_dropWhile_not h

theorem last_pyStrip_not_ws {l : CName} {c : Char}
    (h : (pyStrip l).getLast? = some c) : isSpacePy c = false := by
  simp only [pyStrip] at h
  rw [List.getLast?_reverse] at h
  exact head?_dropWhile_not h

theorem dropWhile_eq_self_of_head {p : Char → Bool} {l : List Char}
    (h : ∀ c, l.head? = some c → p c = false) : l.dropWhile p = l := by
  cases l with
  | nil => rfl
  | cons a l =>
    rw [List.dropWhile_cons, if_neg]
    rw [h a rfl]
    simp

theorem pyStrip_eq_self {l : CName}
    (h1 : ∀ c, l.head? = some c → isSpacePy c = false)
    (h2 : ∀ c, l.getLast? = some c → isSpacePy c = false) : pyStrip l = l := by
  have hd : l.dropWhile isSpacePy = l := dropWhile_eq_self_of_head h1
  simp only [pyStrip, hd]
  have hd2 : l.reverse.dropWhile isSpacePy = l.reverse := by
    apply dropWhile_eq_self_of_head
    intro c hc
    rw [List.head?_reverse] at hc
    exact h2 c hc
  rw [hd2, List.reverse_reverse]

theorem map_normCharF (l : CName) :
    ((l.map lowerChar).map spaceChar).map foldChar = l.map normCharF := by
  rw [List.map_map, List.map_map]
  rfl

theorem normName_eq_mapF (s : CName) :
    normName s = (pyStrip s).map normCharF := by
  simp only [normName]
  exact map_normCharF _

theorem normName_idem (s : CName) : normName (normName s) = normName s := by
  rw [normName_eq_mapF s]
  have hstrip : pyStrip ((pyStrip s).map normCharF) = (pyStrip s).map normCharF := by
    apply pyStrip_eq_self
    · intro c hc
      rw [List.head?_map] at hc
      cases hh : (pyStrip s).head? with
      | none => rw [hh] at hc; simp at hc
      | some d =>
        rw [hh] at hc
        have hfc : normCharF d = c := by simpa using hc
        rw [← hfc]
        exact isSpacePy_normCharF (head_pyStrip_not_ws hh)
    · intro c hc
      rw [List.getLast?_map] at hc
      cases hh : (pyStrip s).getLast? with
      | none => rw [hh] at hc; simp at hc
      | some d =>
        rw [hh] at hc
        have hfc : normCharF d = c := by simpa using hc
        rw [← hfc]
        exact isSpacePy_normCharF (last_pyStrip_not_ws hh)
  have hmm : ∀ u : CName, (u.map normCharF).map normCharF = u.map normCharF := by
    intro u
    induction u with
    | nil => rfl
    | cons a u ih =>
      simp only [List.map_cons]
      rw [normCharF_idem, ih]
  simp only [normName]
  rw [hstrip, map_normCharF]
  exact hmm _

/-- C10: `normalize_column_names` is idempotent — applying it twice yields
the same column names as applying it once. -/
theorem normalize_column_names_idempotent (cols : List CName) :
    normalize_column_names (normalize_column_names cols) = normalize_column_names cols := by
  simp only [normalize_column_names, List.map_map]
  exact List.map_congr_left (fun s _ => normName_idem s)
